import Mathlib

/-!
Shallow embedding of `httplib.go` (package httplib): a fluent HTTP request
builder plus a persistent-connection client.  External collaborators
(URL parser, TCP/TLS dial, HTTP message writer/reader, filesystem) are
modelled as an explicit `World` of oracles; the code under `src/httplib.go`
is translated function by function.  Machine strings are Go byte strings;
we model them with Lean `String`/`List Char` and note byte/char
correspondences where Go indexes bytes (the delimiters involved, `:`,
`]`, `?`, `&`, `=`, are all ASCII, so relative positions agree).
-/

/-- Errors (`os.Error` values).  `persistEOF` models the distinguished
sentinel `http.ErrPersistEOF`; all other errors are abstract codes. -/
inductive Err where
  | persistEOF : Err
  | mk : Nat → Err
deriving DecidableEq

/-- Parsed URL (`http.URL`): the fields this library reads. -/
structure URL where
  scheme : String
  host : String
deriving DecidableEq

/-- A transport connection handle (`*http.ClientConn`).  Handles opened at
different times carry distinct `id`s (a freshness counter supplies them). -/
structure Conn where
  id : Nat
  addr : String
deriving DecidableEq

/-- HTTP response (`*http.Response`): status plus an optional body stream,
the body modelled as the list of bytes the stream yields. -/
structure Response where
  status : Nat := 0
  body : Option (List Nat) := none
deriving DecidableEq

/-- HTTP request (`http.Request`): the fields this library writes.  The Go
zero value has `ContentLength = 0` and nil `Body`/`URL`. -/
structure Request where
  method : String := ""
  url : Option URL := none
  headers : List (String × String) := []
  userAgent : String := ""
  body : Option (List Nat) := none
  contentLength : Int := 0
deriving DecidableEq

/-- UTF-8 encoding of one character (Go strings are byte strings; `len`
and buffer writes count bytes). -/
def utf8Bytes (c : Char) : List Nat :=
  let n := c.toNat
  if n < 128 then [n]
  else if n < 2048 then [192 + n / 64, 128 + n % 64]
  else if n < 65536 then [224 + n / 4096, 128 + (n / 64) % 64, 128 + n % 64]
  else [240 + n / 262144, 128 + (n / 4096) % 64, 128 + (n / 64) % 64, 128 + n % 64]

/-- The bytes of a Go string: UTF-8 encoding of its characters. -/
def strBytes (s : String) : List Nat :=
  s.data.flatMap utf8Bytes

/-- Go map write `m[k] = v` on an association-list model of a map:
replace the entry for `k` when present, else add one. -/
def upsert {β : Type} : List (String × β) → String → β → List (String × β)
  | [], k, v => [(k, v)]
  | (k', v') :: rest, k, v =>
    if k' = k then (k, v) :: rest else (k', v') :: upsert rest k v

/-- Go map read `m[k]` (as an `Option`; Go yields the zero value on miss). -/
def mapGet {β : Type} : List (String × β) → String → Option β
  | [], _ => none
  | (k', v) :: rest, k => if k' = k then some v else mapGet rest k

/-- The world of external collaborators, supplying the outcome of every
call this library makes into the standard library: URL parsing, TCP
dialling, TLS dialling and hostname verification, request writing,
response reading, and file opening.  `none` for an `Option Err` means
success; `read` returns a Go-style `(resp, err)` pair. -/
structure World where
  parseURL : String → Except Err URL
  dial : String → Option Err
  tlsDial : String → Option Err
  verifyHostname : String → Option Err
  write : Conn → Request → Option Err
  read : Conn → Option Response × Option Err
  openErr : String → Option Err

/-- Index of the last occurrence of `c` in `s`, or `-1` when absent:
`strings.LastIndex(s, string(c))` (byte index in Go; char index here —
the comparison of two such indices is unaffected). -/
def lastIdx : List Char → Char → Int
  | [], _ => -1
  | a :: rest, c =>
    if 0 ≤ lastIdx rest c then lastIdx rest c + 1
    else if a = c then 0 else -1

/-- Source line 33: `strings.LastIndex(s, ":") > strings.LastIndex(s, "]")`. -/
def hasPort (s : String) : Bool :=
  lastIdx s.data ':' > lastIdx s.data ']'

/-- Source lines 36-39: the address `newConn` dials — the URL host, with
`":" + scheme` appended when the host has no port. -/
def connAddr (url : URL) : String :=
  if hasPort url.host then url.host else url.host ++ ":" ++ url.scheme

/-- Source lines 52-55: the hostname handed to certificate verification —
the URL host with any `:port` suffix stripped. -/
def stripPort (h : String) : String :=
  if hasPort h then String.mk (h.data.take (lastIdx h.data ':').toNat) else h

/-- Source lines 35-62, `newConn`: derive host:port, dial plain TCP for
scheme `"http"`, else TLS-dial and verify the certificate hostname.  On
success the handle is fresh (counter `fresh` names it and is bumped). -/
def newConn (w : World) (fresh : Nat) (url : URL) : Except Err (Conn × Nat) :=
  let addr := connAddr url
  if url.scheme = "http" then
    match w.dial addr with
    | some e => .error e
    | none => .ok (⟨fresh, addr⟩, fresh + 1)
  else
    match w.tlsDial addr with
    | some e => .error e
    | none =>
      match w.verifyHostname (stripPort url.host) with
      | some e => .error e
      | none => .ok (⟨fresh, addr⟩, fresh + 1)

/-- Source lines 64-92, `getResponse` (the single-shot executor): parse the
raw URL, attach it to the request, open a fresh connection, write the
request, read one response.  A read error equal to `http.ErrPersistEOF`
is tolerated: the response read so far is returned with a nil error. -/
def getResponse (w : World) (fresh : Nat) (rawUrl : String) (req : Request) :
    Except Err (Option Response) × Nat :=
  match w.parseURL rawUrl with
  | .error e => (.error e, fresh)
  | .ok url =>
    match newConn w fresh url with
    | .error e => (.error e, fresh)
    | .ok (conn, fresh') =>
      match w.write conn { req with url := some url } with
      | some e => (.error e, fresh')
      | none =>
        match w.read conn with
        | (resp, some e) =>
          if e = Err.persistEOF then (.ok resp, fresh') else (.error e, fresh')
        | (resp, none) => (.ok resp, fresh')

/-- Persistent client state (`type Client struct`): one cached connection
and the URL last used (both nil pointers initially). -/
structure Client where
  conn : Option Conn := none
  lastURL : Option URL := none
deriving DecidableEq

/-- Outcome of a `Client.Request` call.  `nilDeref` records a Go nil
pointer dereference (a runtime panic, not an error return). -/
inductive Outcome where
  | ok : Option Response → Outcome
  | err : Err → Outcome
  | nilDeref : Outcome
deriving DecidableEq

/-- Source lines 110-118: the request `Client.Request` builds — method and
headers as given, user-agent from the `User-Agent` header entry else the
default, body wrapped as a non-closing reader.  `ContentLength` is never
assigned, so it keeps the zero value 0. -/
def buildClientReq (url : URL) (method : String)
    (headers : List (String × String)) (body : String) : Request :=
  let ua := (mapGet headers "User-Agent").getD ""
  { method := method
    url := some url
    headers := headers
    userAgent := if ua = "" then "httplib.go" else ua
    body := some (strBytes body)
    contentLength := 0 }

/-- Source lines 94-136, `Client.Request`: parse the URL; when no
connection is cached or the cached host differs, open a new one — the
error from `newConn` is assigned to `err` but never inspected (source
line 102), so on failure the nil connection flows into `conn.Write`
(`nilDeref`).  Then build the request, write it, read one response; every
read error (the persistent-EOF sentinel included) is propagated. -/
def Client.Request (client : Client) (w : World) (fresh : Nat)
    (rawurl method : String) (headers : Option (List (String × String)))
    (body : String) : Outcome × Client × Nat :=
  match w.parseURL rawurl with
  | .error e => (.err e, client, fresh)
  | .ok url =>
    let needNew : Option Bool :=
      match client.conn, client.lastURL with
      | none, _ => some true
      | some _, none => none
      | some _, some lu => some (lu.host ≠ url.host)
    match needNew with
    | none => (.nilDeref, client, fresh)
    | some nn =>
      let (conn?, fresh') :=
        if nn then
          match newConn w fresh url with
          | .error _ => (none, fresh)
          | .ok (c, f') => (some c, f')
        else (client.conn, fresh)
      let hs := headers.getD []
      let client' : Client := { conn := conn?, lastURL := some url }
      let req := buildClientReq url method hs body
      match conn? with
      | none => (.nilDeref, client', fresh')
      | some c =>
        match w.write c req with
        | some e => (.err e, client', fresh')
        | none =>
          match w.read c with
          | (_, some e) => (.err e, client', fresh')
          | (resp, none) => (.ok resp, client', fresh')

/-- Body content handed to the builder's `Body` setter (`interface{}`):
a string, a byte slice, or anything else (silently ignored). -/
inductive BodyData where
  | str : String → BodyData
  | bytes : List Nat → BodyData
  | other : BodyData
deriving DecidableEq

/-- Builder state (`type HttpRequestBuilder struct`). -/
structure HttpRequestBuilder where
  url : String
  req : Request
  params : List (String × String)
deriving DecidableEq

/-- Source lines 148-154, the `Get` factory. -/
def Get (url : String) : HttpRequestBuilder :=
  { url := url
    req := { method := "GET", headers := [], userAgent := "httplib.go" }
    params := [] }

/-- Source lines 156-162, the `Post` factory. -/
def Post (url : String) : HttpRequestBuilder :=
  { url := url
    req := { method := "POST", headers := [], userAgent := "httplib.go" }
    params := [] }

/-- Source lines 164-170, the `Put` factory. -/
def Put (url : String) : HttpRequestBuilder :=
  { url := url
    req := { method := "PUT", headers := [], userAgent := "httplib.go" }
    params := [] }

/-- Source lines 172-178, the `Delete` factory. -/
def Delete (url : String) : HttpRequestBuilder :=
  { url := url
    req := { method := "DELETE", headers := [], userAgent := "httplib.go" }
    params := [] }

/-- Source lines 213-216: header upsert. -/
def HttpRequestBuilder.Header (b : HttpRequestBuilder) (key value : String) :
    HttpRequestBuilder :=
  { b with req := { b.req with headers := upsert b.req.headers key value } }

/-- Source lines 218-221: parameter upsert. -/
def HttpRequestBuilder.Param (b : HttpRequestBuilder) (key value : String) :
    HttpRequestBuilder :=
  { b with params := upsert b.params key value }

/-- Source lines 223-233: the `Body` setter — strings and byte slices set
the body and the content-length to the byte length; anything else is
silently ignored. -/
def HttpRequestBuilder.Body (b : HttpRequestBuilder) (data : BodyData) :
    HttpRequestBuilder :=
  match data with
  | .str t =>
    { b with req := { b.req with
                      body := some (strBytes t)
                      contentLength := ((strBytes t).length : Int) } }
  | .bytes t =>
    { b with req := { b.req with
                      body := some t
                      contentLength := (t.length : Int) } }
  | .other => b

/-- One escaped character of `http.URLEscape` (an external collaborator,
modelled as standard query escaping: unreserved characters kept, space
as `+`, every other byte percent-encoded). -/
def escapeChar (c : Char) : List Char :=
  let unreserved :=
    (('a' ≤ c ∧ c ≤ 'z') ∨ ('A' ≤ c ∧ c ≤ 'Z') ∨ ('0' ≤ c ∧ c ≤ '9')
      ∨ c = '-' ∨ c = '_' ∨ c = '.' ∨ c = '~')
  if unreserved then [c]
  else if c = ' ' then ['+']
  else (utf8Bytes c).flatMap fun b =>
    let hex := fun n => if n < 10 then Char.ofNat (48 + n) else Char.ofNat (55 + n)
    ['%', hex (b / 16), hex (b % 16)]

/-- Model of `http.URLEscape`. -/
def urlEscape (s : String) : String :=
  String.mk (s.data.flatMap escapeChar)

/-- One encoded `key=value` pair as written by the parameter loop. -/
def pairStr (k v : String) : String :=
  urlEscape k ++ "=" ++ urlEscape v

/-- Source lines 189-195: the buffer accumulated by the parameter loop —
each pair followed by `&` (map iteration modelled in list order). -/
def paramConcat : List (String × String) → String
  | [] => ""
  | kv :: rest => pairStr kv.1 kv.2 ++ "&" ++ paramConcat rest

/-- Drop the final character: models `s[0 : len(s)-1]` (the dropped byte
here is always the ASCII `&`, so byte and char slicing agree). -/
def strDropLast (s : String) : String :=
  String.mk s.data.dropLast

/-- Source lines 187-198: the encoded parameter string — empty for an
empty mapping, else the loop's buffer with the trailing `&` removed. -/
def paramBody (params : List (String × String)) : String :=
  if 0 < params.length then strDropLast (paramConcat params) else ""

/-- Models `strings.Index(b.url, "?") != -1`. -/
def containsQuestion (s : String) : Bool :=
  s.data.contains '?'

/-- Source lines 199-208: builder finalization — GET appends the encoded
parameters to the URL (`&` when the URL already has a `?`, else `?`);
POST with no explicit body installs them as the body and sets the
content-length to the byte length; other cases leave the builder as is. -/
def HttpRequestBuilder.finalize (b : HttpRequestBuilder) : HttpRequestBuilder :=
  let pb := paramBody b.params
  if b.req.method = "GET" ∧ 0 < pb.length then
    if containsQuestion b.url then { b with url := b.url ++ "&" ++ pb }
    else { b with url := b.url ++ "?" ++ pb }
  else if b.req.method = "POST" ∧ b.req.body = none ∧ 0 < pb.length then
    { b with req := { b.req with
                      body := some (strBytes pb)
                      contentLength := ((strBytes pb).length : Int) } }
  else b

/-- Alias for the single-shot executor, so the builder method of the same
name can refer to it unambiguously. -/
def execGetResponse (w : World) (fresh : Nat) (rawUrl : String)
    (req : Request) : Except Err (Option Response) × Nat :=
  getResponse w fresh rawUrl req

/-- Source lines 186-211, the builder's `getResponse`: finalize, then
delegate to the single-shot executor. -/
def HttpRequestBuilder.getResponse (b : HttpRequestBuilder) (w : World)
    (fresh : Nat) : Except Err (Option Response) × Nat :=
  let b' := b.finalize
  execGetResponse w fresh b'.url b'.req

/-- Outcome of an `AsFile` call: success, an error return, or a Go nil
pointer dereference (runtime panic). -/
inductive FileOutcome where
  | ok : FileOutcome
  | err : Err → FileOutcome
  | nilDeref : FileOutcome
deriving DecidableEq

/-- The filesystem: a mapping from path to byte content. -/
abbrev FS : Type := List (String × List Nat)

/-- Source lines 267-286, `AsFile`: open the file with
`O_RDWR|O_CREATE` (mode 0644) — the file is created when missing but an
existing file is NOT truncated (`O_TRUNC` is absent) and the write
position starts at 0; then run the request and copy the response body
into the file, overwriting the first `len(body)` bytes and leaving any
longer pre-existing tail in place. -/
def HttpRequestBuilder.AsFile (b : HttpRequestBuilder) (w : World)
    (fresh : Nat) (fs : FS) (filename : String) : FileOutcome × FS × Nat :=
  match w.openErr filename with
  | some e => (.err e, fs, fresh)
  | none =>
    let old := (mapGet fs filename).getD []
    let fs1 := upsert fs filename old
    match b.getResponse w fresh with
    | (.error e, fresh') => (.err e, fs1, fresh')
    | (.ok none, fresh') => (.nilDeref, fs1, fresh')
    | (.ok (some resp), fresh') =>
      match resp.body with
      | none => (.ok, fs1, fresh')
      | some bb => (.ok, upsert fs1 filename (bb ++ old.drop bb.length), fresh')

/-- Spec-side form of the encoded parameter string: the percent-encoded
`key=value` pairs joined by `&` with no trailing separator. -/
def joinPairs : List (String × String) → String
  | [] => ""
  | [kv] => pairStr kv.1 kv.2
  | kv :: rest => pairStr kv.1 kv.2 ++ "&" ++ joinPairs rest

/-- Accumulate a list of parameters through repeated `Param` calls. -/
def addParams (b : HttpRequestBuilder) (ps : List (String × String)) :
    HttpRequestBuilder :=
  ps.foldl (fun acc kv => acc.Param kv.1 kv.2) b

/-- Spec-side reading of "the host contains a colon-delimited port outside
of an IPv6 bracket segment": some character is a `:` with no `]` anywhere
after it. -/
def colonAfterBracket (l : List Char) : Prop :=
  ∃ i : Fin l.length, l.get i = ':' ∧ ∀ j : Fin l.length, (i : Nat) < (j : Nat) → l.get j ≠ ']'

instance (l : List Char) : Decidable (colonAfterBracket l) := by
  unfold colonAfterBracket
  infer_instance

theorem lastIdx_ge (l : List Char) (c : Char) : -1 ≤ lastIdx l c := by
  induction l with
  | nil => simp [lastIdx]
  | cons a rest ih =>
    simp only [lastIdx]
    split
    · omega
    · split <;> omega

theorem lastIdx_lt_length (l : List Char) (c : Char) :
    lastIdx l c < (l.length : Int) := by
  induction l with
  | nil => simp [lastIdx]
  | cons a rest ih =>
    simp only [lastIdx, List.length_cons]
    split
    · omega
    · split <;> omega

theorem lastIdx_get (l : List Char) (c : Char) :
    0 ≤ lastIdx l c → l[(lastIdx l c).toNat]? = some c := by
  induction l with
  | nil => intro h; simp [lastIdx] at h
  | cons a rest ih =>
    intro h
    by_cases hr : 0 ≤ lastIdx rest c
    · have h1 : lastIdx (a :: rest) c = lastIdx rest c + 1 := by
        simp [lastIdx, hr]
      rw [h1]
      have h2 : (lastIdx rest c + 1).toNat = (lastIdx rest c).toNat + 1 := by
        omega
      rw [h2]
      simpa using ih hr
    · by_cases ha : a = c
      · have h1 : lastIdx (a :: rest) c = 0 := by simp [lastIdx, hr, ha]
        rw [h1]
        simp [ha]
      · have h1 : lastIdx (a :: rest) c = -1 := by simp [lastIdx, hr, ha]
        rw [h1] at h
        omega

theorem le_lastIdx (l : List Char) (c : Char) (i : Nat) :
    l[i]? = some c → (i : Int) ≤ lastIdx l c := by
  induction l generalizing i with
  | nil => intro h; simp at h
  | cons a rest ih =>
    intro h
    match i with
    | 0 =>
      simp at h
      have := lastIdx_ge rest c
      simp [lastIdx, h]
      split <;> omega
    | Nat.succ k =>
      simp only [List.getElem?_cons_succ] at h
      have hk := ih k h
      have := lastIdx_ge rest c
      simp only [lastIdx]
      split
      · omega
      · omega

theorem gt_lastIdx_ne (l : List Char) (c : Char) (m : Nat) :
    lastIdx l c < (m : Int) → l[m]? ≠ some c := by
  intro h hcon
  have := le_lastIdx l c m hcon
  omega

/-- The transport opener's port test, characterised: `hasPort` holds
exactly when some `:` occurs with no `]` after it. -/
theorem hasPort_iff (s : String) :
    hasPort s = true ↔ colonAfterBracket s.data := by
  constructor
  · intro h
    simp only [hasPort, decide_eq_true_eq] at h
    have hge := lastIdx_ge s.data ']'
    have hc : 0 ≤ lastIdx s.data ':' := by omega
    have hlt := lastIdx_lt_length s.data ':'
    have hlen : (lastIdx s.data ':').toNat < s.data.length := by omega
    refine ⟨⟨(lastIdx s.data ':').toNat, hlen⟩, ?_, ?_⟩
    · have hg := lastIdx_get s.data ':' hc
      have : s.data[(lastIdx s.data ':').toNat]? =
          some (s.data.get ⟨(lastIdx s.data ':').toNat, hlen⟩) := by
        simp
      rw [this] at hg
      exact Option.some.inj hg
    · intro j hj hcon
      have hv : ((⟨(lastIdx s.data ':').toNat, hlen⟩ : Fin s.data.length) : Nat) =
          (lastIdx s.data ':').toNat := rfl
      rw [hv] at hj
      have hjg : s.data[(j : Nat)]? = some ']' := by
        have : s.data[(j : Nat)]? = some (s.data.get j) := by simp
        rw [this, hcon]
      have := le_lastIdx s.data ']' (j : Nat) hjg
      omega
  · rintro ⟨i, hc, hj⟩
    have hi : s.data[(i : Nat)]? = some ':' := by
      have : s.data[(i : Nat)]? = some (s.data.get i) := by simp
      rw [this, hc]
    have h1 : ((i : Nat) : Int) ≤ lastIdx s.data ':' := le_lastIdx _ _ _ hi
    have h2 : lastIdx s.data ']' < ((i : Nat) : Int) := by
      by_contra hcon
      push_neg at hcon
      have hge : 0 ≤ lastIdx s.data ']' := by
        have := (i : Nat).cast_nonneg (α := Int)
        omega
      have hglt := lastIdx_lt_length s.data ']'
      have hmlt : (lastIdx s.data ']').toNat < s.data.length := by omega
      have hg := lastIdx_get s.data ']' hge
      by_cases heq : (lastIdx s.data ']').toNat = (i : Nat)
      · rw [heq, hi] at hg
        exact absurd (Option.some.inj hg) (by decide)
      · have hlt2 : (i : Nat) < (lastIdx s.data ']').toNat := by omega
        have := hj ⟨(lastIdx s.data ']').toNat, hmlt⟩ hlt2
        have hgg : s.data[(lastIdx s.data ']').toNat]? =
            some (s.data.get ⟨(lastIdx s.data ']').toNat, hmlt⟩) := by simp
        rw [hgg] at hg
        exact this (Option.some.inj hg)
    simp only [hasPort, decide_eq_true_eq]
    omega

/-- C7: for every URL whose host has no `:` after its last `]`, the
transport opener dials `host ++ ":" ++ scheme`; when such a port separator
is present, the host string is dialled unchanged. -/
theorem connAddr_spec (url : URL) :
    (¬ colonAfterBracket url.host.data →
      connAddr url = url.host ++ ":" ++ url.scheme)
    ∧ (colonAfterBracket url.host.data → connAddr url = url.host) := by
  constructor
  · intro h
    have hb : hasPort url.host = false := by
      rcases Bool.eq_false_or_eq_true (hasPort url.host) with ht | hf
      · exact absurd ((hasPort_iff url.host).mp ht) h
      · exact hf
    simp [connAddr, hb]
  · intro h
    have hb : hasPort url.host = true := (hasPort_iff url.host).mpr h
    simp [connAddr, hb]

/-- Witness for C7 at concrete hosts, portless and ported. -/
theorem connAddr_spec_witness :
    connAddr ⟨"http", "example.com"⟩ = "example.com" ++ ":" ++ "http"
    ∧ connAddr ⟨"https", "example.com:443"⟩ = "example.com:443" :=
  ⟨(connAddr_spec ⟨"http", "example.com"⟩).1 (by decide),
   (connAddr_spec ⟨"https", "example.com:443"⟩).2 (by decide)⟩

theorem upsert_upsert {β : Type} (m : List (String × β)) (k : String)
    (v₁ v₂ : β) : upsert (upsert m k v₁) k v₂ = upsert m k v₂ := by
  induction m with
  | nil => simp [upsert]
  | cons kv rest ih =>
    obtain ⟨k', v'⟩ := kv
    by_cases h : k' = k
    · simp [upsert, h]
    · simp [upsert, h, ih]

theorem mapGet_upsert {β : Type} (m : List (String × β)) (k : String)
    (v : β) : mapGet (upsert m k v) k = some v := by
  induction m with
  | nil => simp [upsert, mapGet]
  | cons kv rest ih =>
    obtain ⟨k', v'⟩ := kv
    by_cases h : k' = k
    · simp [upsert, h, mapGet]
    · simp [upsert, h, mapGet, ih]

theorem countP_zero_of_not_mem {β : Type} (m : List (String × β))
    (k : String) (h : k ∉ m.map Prod.fst) :
    m.countP (fun kv => kv.1 == k) = 0 := by
  rw [List.countP_eq_zero]
  intro kv hkv
  simp only [beq_iff_eq, decide_eq_true_eq]
  intro hk
  exact h (List.mem_map.mpr ⟨kv, hkv, hk⟩)

theorem countP_upsert {β : Type} (m : List (String × β)) (k : String)
    (v : β) (h : (m.map Prod.fst).Nodup) :
    (upsert m k v).countP (fun kv => kv.1 == k) = 1 := by
  induction m with
  | nil => simp [upsert, List.countP_cons]
  | cons kv rest ih =>
    obtain ⟨k', v'⟩ := kv
    simp only [List.map_cons, List.nodup_cons] at h
    by_cases hk : k' = k
    · subst hk
      have hu : upsert ((k', v') :: rest) k' v = (k', v) :: rest := by
        simp [upsert]
      rw [hu, List.countP_cons]
      simp [countP_zero_of_not_mem rest k' h.1]
    · simp only [upsert, if_neg hk]
      rw [List.countP_cons]
      simp only [beq_iff_eq, decide_eq_true_eq]
      simp [hk, ih h.2]

/-- C9: header and parameter upserts — the same key set twice keeps one
entry holding the last value, and repeated identical calls change
nothing. -/
theorem header_param_upsert_spec (b : HttpRequestBuilder)
    (k v v₁ v₂ : String) :
    ((b.Header k v₁).Header k v₂ = b.Header k v₂)
    ∧ ((b.Param k v₁).Param k v₂ = b.Param k v₂)
    ∧ ((b.Header k v).Header k v = b.Header k v)
    ∧ ((b.Param k v).Param k v = b.Param k v)
    ∧ (mapGet (b.Header k v).req.headers k = some v)
    ∧ (mapGet (b.Param k v).params k = some v)
    ∧ ((b.req.headers.map Prod.fst).Nodup →
        ((b.Header k v₁).Header k v₂).req.headers.countP
          (fun kv => kv.1 == k) = 1)
    ∧ ((b.params.map Prod.fst).Nodup →
        ((b.Param k v₁).Param k v₂).params.countP
          (fun kv => kv.1 == k) = 1) := by
  refine ⟨?_, ?_, ?_, ?_, ?_, ?_, ?_, ?_⟩
  · simp [HttpRequestBuilder.Header, upsert_upsert]
  · simp [HttpRequestBuilder.Param, upsert_upsert]
  · simp [HttpRequestBuilder.Header, upsert_upsert]
  · simp [HttpRequestBuilder.Param, upsert_upsert]
  · simp [HttpRequestBuilder.Header, mapGet_upsert]
  · simp [HttpRequestBuilder.Param, mapGet_upsert]
  · intro h
    simp [HttpRequestBuilder.Header, upsert_upsert, countP_upsert _ _ _ h]
  · intro h
    simp [HttpRequestBuilder.Param, upsert_upsert, countP_upsert _ _ _ h]

/-- Witness for C9 on a concrete builder: two writes to key `a` leave one
entry with the last value. -/
theorem header_param_upsert_spec_witness :
    ((((Get "u").Header "a" "1").Header "a" "2").req.headers.countP
      (fun kv => kv.1 == "a") = 1)
    ∧ ((((Get "u").Param "a" "1").Param "a" "2").params.countP
      (fun kv => kv.1 == "a") = 1) :=
  ⟨(header_param_upsert_spec (Get "u") "a" "x" "1" "2").2.2.2.2.2.2.1
      (by decide),
   (header_param_upsert_spec (Get "u") "a" "x" "1" "2").2.2.2.2.2.2.2
      (by decide)⟩

theorem addParams_frame (ps : List (String × String))
    (b : HttpRequestBuilder) :
    (addParams b ps).req = b.req ∧ (addParams b ps).url = b.url := by
  induction ps generalizing b with
  | nil => simp [addParams]
  | cons kv rest ih =>
    have h := ih (b.Param kv.1 kv.2)
    simp only [addParams, List.foldl_cons] at h ⊢
    simpa [HttpRequestBuilder.Param] using h

theorem finalize_frame_of_method (b : HttpRequestBuilder)
    (h1 : b.req.method ≠ "GET") (h2 : b.req.method ≠ "POST") :
    b.finalize = b := by
  simp [HttpRequestBuilder.finalize, h1, h2]

/-- C10: a PUT or DELETE builder discards accumulated parameters —
finalization leaves the URL and the request body unchanged. -/
theorem put_delete_params_discarded (u : String)
    (ps : List (String × String)) :
    ((addParams (Put u) ps).finalize.url = u)
    ∧ ((addParams (Put u) ps).finalize.req.body = none)
    ∧ ((addParams (Delete u) ps).finalize.url = u)
    ∧ ((addParams (Delete u) ps).finalize.req.body = none) := by
  have hp := addParams_frame ps (Put u)
  have hd := addParams_frame ps (Delete u)
  have hfp : (addParams (Put u) ps).finalize = addParams (Put u) ps := by
    apply finalize_frame_of_method <;> rw [hp.1] <;> simp [Put]
  have hfd : (addParams (Delete u) ps).finalize = addParams (Delete u) ps := by
    apply finalize_frame_of_method <;> rw [hd.1] <;> simp [Delete]
  refine ⟨?_, ?_, ?_, ?_⟩
  · rw [hfp, hp.2]; simp [Put]
  · rw [hfp, hp.1]; simp [Put]
  · rw [hfd, hd.2]; simp [Delete]
  · rw [hfd, hd.1]; simp [Delete]

theorem strData_append (a b : String) : (a ++ b).data = a.data ++ b.data :=
  rfl

theorem strMk_data (s : String) : String.mk s.data = s := rfl

theorem pairStr_data (k v : String) :
    (pairStr k v).data = ((urlEscape k).data ++ ['=']) ++ (urlEscape v).data :=
  rfl

theorem paramConcat_data_ne_nil (kv : String × String)
    (rest : List (String × String)) :
    (paramConcat (kv :: rest)).data ≠ [] := by
  have h : (paramConcat (kv :: rest)).data
      = (pairStr kv.1 kv.2 ++ "&").data ++ (paramConcat rest).data := rfl
  rw [h]
  intro hcon
  have := congrArg List.length hcon
  simp [strData_append, pairStr_data] at this

theorem strDropLast_paramConcat (ps : List (String × String)) (h : ps ≠ []) :
    strDropLast (paramConcat ps) = joinPairs ps := by
  induction ps with
  | nil => exact absurd rfl h
  | cons kv rest ih =>
    cases rest with
    | nil =>
      have hd : (paramConcat [kv]).data = (pairStr kv.1 kv.2).data ++ ['&'] := by
        have h1 : (paramConcat [kv]).data
            = (pairStr kv.1 kv.2).data ++ ['&'] ++ (paramConcat []).data := rfl
        rw [h1]
        simp [paramConcat]
      show strDropLast (paramConcat [kv]) = pairStr kv.1 kv.2
      unfold strDropLast
      rw [hd, List.dropLast_concat]
    | cons kv2 rest2 =>
      have hne := paramConcat_data_ne_nil kv2 rest2
      have ihd : (paramConcat (kv2 :: rest2)).data.dropLast
          = (joinPairs (kv2 :: rest2)).data :=
        congrArg String.data (ih (by simp))
      have hd : (paramConcat (kv :: kv2 :: rest2)).data
          = ((pairStr kv.1 kv.2).data ++ ['&'])
            ++ (paramConcat (kv2 :: rest2)).data := rfl
      have hgoal : (paramConcat (kv :: kv2 :: rest2)).data.dropLast
          = (joinPairs (kv :: kv2 :: rest2)).data := by
        rw [hd, List.dropLast_append_of_ne_nil _ hne, ihd]
        rfl
      show strDropLast _ = _
      unfold strDropLast
      rw [hgoal]

theorem paramBody_eq_joinPairs (ps : List (String × String)) (h : ps ≠ []) :
    paramBody ps = joinPairs ps := by
  unfold paramBody
  rw [if_pos (List.length_pos.mpr h)]
  exact strDropLast_paramConcat ps h

theorem joinPairs_length_pos (kv : String × String)
    (rest : List (String × String)) :
    0 < (joinPairs (kv :: rest)).length := by
  cases rest with
  | nil =>
    show 0 < (pairStr kv.1 kv.2).data.length
    rw [pairStr_data]
    simp
  | cons kv2 rest2 =>
    show 0 < (pairStr kv.1 kv.2 ++ "&" ++ joinPairs (kv2 :: rest2)).data.length
    simp only [strData_append, List.length_append, pairStr_data]
    simp

/-- C5: finalizing a GET builder with a non-empty parameter mapping
appends the escaped `key=value` pairs joined by `&` (no trailing
separator) to the URL, with `?` as the first separator exactly when the
base URL contains no `?`, else `&`; the pending request is untouched. -/
theorem get_params_in_url (b : HttpRequestBuilder)
    (hm : b.req.method = "GET") (hp : b.params ≠ []) :
    ('?' ∉ b.url.data →
       b.finalize.url = b.url ++ "?" ++ joinPairs b.params)
    ∧ ('?' ∈ b.url.data →
       b.finalize.url = b.url ++ "&" ++ joinPairs b.params)
    ∧ b.finalize.req = b.req := by
  obtain ⟨kv, rest, hps⟩ := List.exists_cons_of_ne_nil hp
  have hpb := paramBody_eq_joinPairs b.params hp
  have hposJ : 0 < (joinPairs b.params).length := by
    rw [hps]
    exact joinPairs_length_pos kv rest
  have hpos : 0 < (paramBody b.params).length := by
    rw [hpb]
    exact hposJ
  have hcq : containsQuestion b.url = true ↔ '?' ∈ b.url.data := by
    simp [containsQuestion]
  refine ⟨?_, ?_, ?_⟩
  · intro hq
    have hq' : containsQuestion b.url = false := by
      rcases Bool.eq_false_or_eq_true (containsQuestion b.url) with ht | hf
      · exact absurd (hcq.mp ht) hq
      · exact hf
    simp [HttpRequestBuilder.finalize, hm, hpos, hposJ, hq', hpb]
  · intro hq
    have hq' : containsQuestion b.url = true := hcq.mpr hq
    simp [HttpRequestBuilder.finalize, hm, hpos, hposJ, hq', hpb]
  · by_cases hq : containsQuestion b.url
    · simp [HttpRequestBuilder.finalize, hm, hpos, hq]
    · simp [HttpRequestBuilder.finalize, hm, hpos, hq]

/-- Witness for C5: a GET with one parameter gains `?q=a+b`; a GET whose
URL already has a query gains `&q=a+b`. -/
theorem get_params_in_url_witness :
    ((Get "http://h/s").Param "q" "a b").finalize.url = "http://h/s?q=a+b"
    ∧ ((Get "http://h/s?x=1").Param "q" "a b").finalize.url
        = "http://h/s?x=1&q=a+b" := by
  constructor
  · have h := (get_params_in_url ((Get "http://h/s").Param "q" "a b")
      (by decide) (by decide)).1 (by decide)
    rw [h]; decide
  · have h := (get_params_in_url ((Get "http://h/s?x=1").Param "q" "a b")
      (by decide) (by decide)).2.1 (by decide)
    rw [h]; decide

/-- C6: finalizing a POST builder installs the encoded parameter string
as the body (content-length its byte length) exactly when no explicit
body was set and the parameter mapping is non-empty; an explicit body
suppresses parameter-driven construction, and an empty mapping changes
nothing. -/
theorem post_params_body (b : HttpRequestBuilder)
    (hm : b.req.method = "POST") :
    (b.req.body = none → b.params ≠ [] →
      b.finalize.req.body = some (strBytes (joinPairs b.params))
      ∧ b.finalize.req.contentLength
          = ((strBytes (joinPairs b.params)).length : Int)
      ∧ b.finalize.url = b.url)
    ∧ (∀ d, b.req.body = some d → b.finalize = b)
    ∧ (b.params = [] → b.finalize = b) := by
  have hne : b.req.method ≠ "GET" := by rw [hm]; decide
  refine ⟨?_, ?_, ?_⟩
  · intro hb hp
    obtain ⟨kv, rest, hps⟩ := List.exists_cons_of_ne_nil hp
    have hpb := paramBody_eq_joinPairs b.params hp
    have hposJ : 0 < (joinPairs b.params).length := by
      rw [hps]
      exact joinPairs_length_pos kv rest
    have hpos : 0 < (paramBody b.params).length := by
      rw [hpb]
      exact hposJ
    refine ⟨?_, ?_, ?_⟩ <;>
      simp [HttpRequestBuilder.finalize, hne, hm, hb, hpos, hposJ, hpb]
  · intro d hb
    simp [HttpRequestBuilder.finalize, hne, hb]
  · intro hp
    simp [HttpRequestBuilder.finalize, hne, hp, paramBody]

/-- Witness for C6: parameters become the body of a bare POST; an explicit
body wins over parameters. -/
theorem post_params_body_witness :
    ((Post "u").Param "a" "b c").finalize.req.body
      = some (strBytes "a=b+c")
    ∧ (((Post "u").Body (BodyData.str "xyz")).Param "a" "b c").finalize
      = ((Post "u").Body (BodyData.str "xyz")).Param "a" "b c" := by
  constructor
  · have h := ((post_params_body ((Post "u").Param "a" "b c")
      (by decide)).1 (by decide) (by decide)).1
    rw [h]; decide
  · exact (post_params_body (((Post "u").Body (BodyData.str "xyz")).Param
      "a" "b c") (by decide)).2.1 (strBytes "xyz") (by decide)

/-- C3 (amended): the builder's `Body` setter and POST parameter
finalization set content-length to the byte length of the installed body;
the persistent client's `Request` attaches the body but leaves
content-length at the zero value 0. -/
theorem content_length_spec (b : HttpRequestBuilder) (t : String)
    (d : List Nat) (u : URL) (hs : List (String × String))
    (s method : String) :
    ((b.Body (BodyData.str t)).req.body = some (strBytes t)
      ∧ (b.Body (BodyData.str t)).req.contentLength
          = ((strBytes t).length : Int))
    ∧ ((b.Body (BodyData.bytes d)).req.body = some d
      ∧ (b.Body (BodyData.bytes d)).req.contentLength = (d.length : Int))
    ∧ (b.req.method = "POST" → b.req.body = none → b.params ≠ [] →
        b.finalize.req.contentLength
          = ((b.finalize.req.body.getD []).length : Int))
    ∧ ((buildClientReq u method hs s).body = some (strBytes s)
      ∧ (buildClientReq u method hs s).contentLength = 0) := by
  refine ⟨⟨rfl, rfl⟩, ⟨rfl, rfl⟩, ?_, ⟨rfl, rfl⟩⟩
  intro hm hb hp
  obtain ⟨hbody, hcl, -⟩ := (post_params_body b hm).1 hb hp
  rw [hbody, hcl]
  rfl

/-- Counterexample for C3 as stated: `Client.Request` wraps the body
`"hello"` (5 bytes) but the request it writes carries content-length 0. -/
theorem content_length_cex :
    (buildClientReq ⟨"http", "h"⟩ "POST" [] "hello").body
        = some (strBytes "hello")
    ∧ ((strBytes "hello").length : Int) = 5
    ∧ (buildClientReq ⟨"http", "h"⟩ "POST" [] "hello").contentLength ≠ 5 := by
  refine ⟨rfl, by decide, by decide⟩

/-- Witness for C3 (amended) at concrete inputs. -/
theorem content_length_spec_witness :
    (((Get "u").Body (BodyData.str "hi")).req.contentLength = 2)
    ∧ ((Post "u").Param "a" "b").finalize.req.contentLength
        = (((((Post "u").Param "a" "b").finalize.req.body).getD []).length
            : Int) := by
  constructor
  · have h := (content_length_spec (Get "u") "hi" [] ⟨"http", "h"⟩ []
      "" "GET").1.2
    rw [h]; decide
  · exact (content_length_spec ((Post "u").Param "a" "b") "hi" []
      ⟨"http", "h"⟩ [] "" "GET").2.2.1 (by decide) (by decide) (by decide)

/-- C4: the single-shot executor treats the persistent-EOF read sentinel
as success and propagates every other read failure, while the persistent
client propagates every read error, the sentinel included. -/
theorem persistEOF_tolerance (w : World) (fresh : Nat) (rawUrl : String)
    (req : Request) (url : URL) (r : Option Response) (e : Err)
    (method bd : String) (hd : Option (List (String × String)))
    (hp : w.parseURL rawUrl = .ok url)
    (hs : url.scheme = "http")
    (hdial : w.dial (connAddr url) = none)
    (hw : ∀ q, w.write ⟨fresh, connAddr url⟩ q = none) :
    (w.read ⟨fresh, connAddr url⟩ = (r, some Err.persistEOF) →
      getResponse w fresh rawUrl req = (.ok r, fresh + 1)
      ∧ (Client.Request ⟨none, none⟩ w fresh rawUrl method hd bd).1
          = Outcome.err Err.persistEOF)
    ∧ (w.read ⟨fresh, connAddr url⟩ = (r, some e) → e ≠ Err.persistEOF →
      getResponse w fresh rawUrl req = (.error e, fresh + 1)
      ∧ (Client.Request ⟨none, none⟩ w fresh rawUrl method hd bd).1
          = Outcome.err e)
    ∧ (w.read ⟨fresh, connAddr url⟩ = (r, none) →
      getResponse w fresh rawUrl req = (.ok r, fresh + 1)) := by
  have hconn : newConn w fresh url = .ok (⟨fresh, connAddr url⟩, fresh + 1) := by
    simp [newConn, hs, hdial]
  refine ⟨?_, ?_, ?_⟩
  · intro hread
    constructor
    · simp [getResponse, hp, hconn, hw, hread]
    · simp [Client.Request, hp, hconn, hw, hread]
  · intro hread hne
    constructor
    · simp [getResponse, hp, hconn, hw, hread, hne]
    · simp [Client.Request, hp, hconn, hw, hread]
  · intro hread
    simp [getResponse, hp, hconn, hw, hread]

/-- A world whose read yields a response together with the persistent-EOF
sentinel. -/
def wEOF : World where
  parseURL := fun _ => .ok ⟨"http", "h"⟩
  dial := fun _ => none
  tlsDial := fun _ => none
  verifyHostname := fun _ => none
  write := fun _ _ => none
  read := fun _ => (some ⟨200, none⟩, some Err.persistEOF)
  openErr := fun _ => none

/-- Witness for C4: on the sentinel, `getResponse` succeeds while
`Client.Request` errors. -/
theorem persistEOF_tolerance_witness :
    getResponse wEOF 0 "http://h/" {} = (.ok (some ⟨200, none⟩), 1)
    ∧ (Client.Request ⟨none, none⟩ wEOF 0 "http://h/" "GET" none "").1
        = Outcome.err Err.persistEOF :=
  (persistEOF_tolerance wEOF 0 "http://h/" {} ⟨"http", "h"⟩
    (some ⟨200, none⟩) (Err.mk 0) "GET" "" none rfl rfl rfl
    (fun _ => rfl)).1 rfl

/-- C8: starting from a fresh client, a successful request caches the
connection and host; a second request to the same host reuses the same
handle without opening a new connection; a request to a different host
opens a new (distinct) handle, replaces the cached one and updates the
cached host. -/
theorem client_conn_reuse (w : World) (f₀ : Nat)
    (raw raw₂ m₁ m₂ m₃ : String)
    (h₁ h₂ h₃ : Option (List (String × String))) (b₁ b₂ b₃ : String)
    (url url₂ : URL) (r r₂ : Response)
    (hp : w.parseURL raw = .ok url) (hs : url.scheme = "http")
    (hdial : w.dial (connAddr url) = none)
    (hw : ∀ q, w.write ⟨f₀, connAddr url⟩ q = none)
    (hr : w.read ⟨f₀, connAddr url⟩ = (some r, none))
    (hp₂ : w.parseURL raw₂ = .ok url₂) (hs₂ : url₂.scheme = "http")
    (hh : url₂.host ≠ url.host)
    (hdial₂ : w.dial (connAddr url₂) = none)
    (hw₂ : ∀ q, w.write ⟨f₀ + 1, connAddr url₂⟩ q = none)
    (hr₂ : w.read ⟨f₀ + 1, connAddr url₂⟩ = (some r₂, none)) :
    Client.Request ⟨none, none⟩ w f₀ raw m₁ h₁ b₁
      = (Outcome.ok (some r), ⟨some ⟨f₀, connAddr url⟩, some url⟩, f₀ + 1)
    ∧ Client.Request ⟨some ⟨f₀, connAddr url⟩, some url⟩ w (f₀ + 1)
        raw m₂ h₂ b₂
      = (Outcome.ok (some r), ⟨some ⟨f₀, connAddr url⟩, some url⟩, f₀ + 1)
    ∧ Client.Request ⟨some ⟨f₀, connAddr url⟩, some url⟩ w (f₀ + 1)
        raw₂ m₃ h₃ b₃
      = (Outcome.ok (some r₂), ⟨some ⟨f₀ + 1, connAddr url₂⟩, some url₂⟩,
          f₀ + 2)
    ∧ (⟨f₀ + 1, connAddr url₂⟩ : Conn) ≠ ⟨f₀, connAddr url⟩ := by
  have hconn : newConn w f₀ url
      = .ok (⟨f₀, connAddr url⟩, f₀ + 1) := by
    simp [newConn, hs, hdial]
  have hconn₂ : newConn w (f₀ + 1) url₂
      = .ok (⟨f₀ + 1, connAddr url₂⟩, f₀ + 2) := by
    simp [newConn, hs₂, hdial₂]
  have hh' : url.host ≠ url₂.host := fun hcon => hh hcon.symm
  refine ⟨?_, ?_, ?_, ?_⟩
  · simp [Client.Request, hp, hconn, hw, hr]
  · simp [Client.Request, hp, hw, hr]
  · simp [Client.Request, hp₂, hconn₂, hw₂, hr₂, hh']
  · simp

/-- A world for the reuse witness: two hosts, every exchange succeeds. -/
def wReuse : World where
  parseURL := fun s =>
    if s = "http://a/" then .ok ⟨"http", "a"⟩ else .ok ⟨"http", "b"⟩
  dial := fun _ => none
  tlsDial := fun _ => none
  verifyHostname := fun _ => none
  write := fun _ _ => none
  read := fun _ => (some ⟨200, none⟩, none)
  openErr := fun _ => none

/-- Witness for C8 with concrete hosts `a` and `b`. -/
theorem client_conn_reuse_witness :
    Client.Request ⟨some ⟨0, connAddr ⟨"http", "a"⟩⟩, some ⟨"http", "a"⟩⟩
        wReuse 1 "http://a/" "GET" none ""
      = (Outcome.ok (some ⟨200, none⟩),
          ⟨some ⟨0, connAddr ⟨"http", "a"⟩⟩, some ⟨"http", "a"⟩⟩, 1)
    ∧ Client.Request ⟨some ⟨0, connAddr ⟨"http", "a"⟩⟩, some ⟨"http", "a"⟩⟩
        wReuse 1 "http://b/" "GET" none ""
      = (Outcome.ok (some ⟨200, none⟩),
          ⟨some ⟨1, connAddr ⟨"http", "b"⟩⟩, some ⟨"http", "b"⟩⟩, 2) := by
  have h := client_conn_reuse wReuse 0 "http://a/" "http://b/"
    "GET" "GET" "GET" none none none "" "" ""
    ⟨"http", "a"⟩ ⟨"http", "b"⟩ ⟨200, none⟩ ⟨200, none⟩
    rfl rfl rfl (fun _ => rfl) rfl rfl rfl
    (by decide) rfl (fun _ => rfl) rfl
  exact ⟨h.2.1, h.2.2.1⟩

/-- A world whose dial always fails with error code 7. -/
def wDialFail : World where
  parseURL := fun _ => .ok ⟨"http", "x"⟩
  dial := fun _ => some (Err.mk 7)
  tlsDial := fun _ => some (Err.mk 7)
  verifyHostname := fun _ => none
  write := fun _ _ => none
  read := fun _ => (none, none)
  openErr := fun _ => none

/-- C1 at the failing input: with no cached connection and a failing dial,
`Client.Request` does not return the dial error — the error from
`newConn` is dropped (source line 102 assigns it without checking) and
the nil connection is dereferenced at the write (a runtime panic). -/
theorem client_request_drops_dial_error :
    Client.Request ⟨none, none⟩ wDialFail 0 "http://x/" "GET" none ""
      = (Outcome.nilDeref, ⟨none, some ⟨"http", "x"⟩⟩, 0)
    ∧ Outcome.nilDeref ≠ Outcome.err (Err.mk 7) := by
  exact ⟨by decide, by decide⟩

/-- A world whose response body is the two bytes `[1, 2]`. -/
def wBody : World where
  parseURL := fun _ => .ok ⟨"http", "h"⟩
  dial := fun _ => none
  tlsDial := fun _ => none
  verifyHostname := fun _ => none
  write := fun _ _ => none
  read := fun _ => (some ⟨200, some [1, 2]⟩, none)
  openErr := fun _ => none

/-- Counterexample for C2 as stated: `AsFile` on a path holding
`[9, 9, 9, 9]` succeeds with a 2-byte response body, yet the file ends up
as `[1, 2, 9, 9]`, not the body `[1, 2]` — `O_TRUNC` is absent. -/
theorem asFile_no_truncate_cex :
    ((Get "http://h/").AsFile wBody 0 [("f", [9, 9, 9, 9])] "f").1
      = FileOutcome.ok
    ∧ mapGet ((Get "http://h/").AsFile wBody 0
        [("f", [9, 9, 9, 9])] "f").2.1 "f" = some [1, 2, 9, 9]
    ∧ some ([1, 2, 9, 9] : List Nat) ≠ some [1, 2] := by
  decide

/-- C2 (amended): on success `AsFile` writes the response body at the
start of the opened (created, never truncated) file, so the resulting
content is the body followed by whatever pre-existing bytes extend past
it; it equals the body exactly when the prior content was no longer. -/
theorem asFile_writes_body_over_old (w : World) (fresh : Nat) (fs : FS)
    (b : HttpRequestBuilder) (fn : String) (r : Response) (bb : List Nat)
    (f' : Nat)
    (hopen : w.openErr fn = none)
    (hresp : b.getResponse w fresh = (.ok (some r), f'))
    (hbody : r.body = some bb) :
    (b.AsFile w fresh fs fn).1 = FileOutcome.ok
    ∧ mapGet (b.AsFile w fresh fs fn).2.1 fn
        = some (bb ++ ((mapGet fs fn).getD []).drop bb.length)
    ∧ (b.AsFile w fresh fs fn).2.2 = f' := by
  simp [HttpRequestBuilder.AsFile, hopen, hresp, hbody, mapGet_upsert]

/-- Witness for C2 (amended): on a fresh path the file content equals the
body exactly. -/
theorem asFile_writes_body_over_old_witness :
    ((Get "http://h/").AsFile wBody 0 [] "f").1 = FileOutcome.ok
    ∧ mapGet ((Get "http://h/").AsFile wBody 0 [] "f").2.1 "f"
        = some ([1, 2] ++ ((mapGet ([] : FS) "f").getD []).drop 2) := by
  have h := asFile_writes_body_over_old wBody 0 [] (Get "http://h/") "f"
    ⟨200, some [1, 2]⟩ [1, 2] 1 rfl rfl rfl
  exact ⟨h.1, h.2.1⟩

